import Mathlib

/-!
Verification of the MangaScience front-end core (script parsing and panel
hydration), shallowly embedded from `src/index.tsx`.

Strings are modelled as `List Char`.  The JavaScript regular-expression
operations used by `parseScript` are embedded as explicit scanning
functions with the exact semantics of the patterns appearing in the
source:

* `scriptText.split(/(?=Panel \d+:)/)` — a non-consuming split at every
  position (other than position 0) where the case-sensitive pattern
  `Panel \d+:` begins;
* `block.match(/^Panel (\d+):/im)` — leftmost case-insensitive match of a
  line-anchored panel header;
* `block.match(/Description:\s*([\s\S]*?)(?=Dialogue:|SFX:|$)/i)` and the
  analogous `Dialogue:`/`SFX:` extractions — leftmost case-insensitive
  label occurrence, greedy whitespace skip, lazy capture up to the first
  following stop label (or end of block);
* `Array.prototype.sort` with comparator `a.panel - b.panel` — a stable
  ascending sort, embedded as stable insertion sort.

The stateful image-hydration loop of `handleGenerateManga` is embedded as
explicit state passing: the image-generation collaborator is an oracle
`req : Nat → Except (List Char) (Option (List Char))` returning, per panel
index, either a transport error or the (optional) extracted data URL.
-/

namespace DrManga

/-- JavaScript's whitespace class `\s` (also the set removed by
`String.prototype.trim`): space, tab, line feed, vertical tab, form feed,
carriage return, NBSP, Ogham space mark, the Unicode space separators
U+2000–U+200A, line/paragraph separators, narrow NBSP, medium mathematical
space, ideographic space and the BOM. -/
def jsWS (c : Char) : Bool :=
  c == ' ' || c == '\t' || c == '\n' || c == '\x0b' || c == '\x0c' ||
  c == '\r' || c == '\u00A0' || c == '\u1680' ||
  c == '\u2000' || c == '\u2001' || c == '\u2002' || c == '\u2003' ||
  c == '\u2004' || c == '\u2005' || c == '\u2006' || c == '\u2007' ||
  c == '\u2008' || c == '\u2009' || c == '\u200A' ||
  c == '\u2028' || c == '\u2029' || c == '\u202F' || c == '\u205F' ||
  c == '\u3000' || c == '\uFEFF'

/-- JavaScript line terminators, after which a multiline `^` matches. -/
def isLineTerm (c : Char) : Bool :=
  c == '\n' || c == '\r' || c == '\u2028' || c == '\u2029'

/-- `String.prototype.trim`: strip leading and trailing `jsWS` characters. -/
def trim (s : List Char) : List Char :=
  ((s.dropWhile jsWS).reverse.dropWhile jsWS).reverse

/-- The literal `Panel` (start of the split marker pattern). -/
def panel5 : List Char := ['P', 'a', 'n', 'e', 'l']

/-- The literal `Panel ` prefixing the case-sensitive split marker. -/
def panelLit : List Char := ['P', 'a', 'n', 'e', 'l', ' ']

/-- Lowercased `panel ` used for the case-insensitive header match. -/
def panelCI : List Char := ['p', 'a', 'n', 'e', 'l', ' ']

/-- Lowercased `description:` label. -/
def descLabel : List Char :=
  ['d', 'e', 's', 'c', 'r', 'i', 'p', 't', 'i', 'o', 'n', ':']

/-- Lowercased `dialogue:` label. -/
def dlgLabel : List Char := ['d', 'i', 'a', 'l', 'o', 'g', 'u', 'e', ':']

/-- Lowercased `sfx:` label. -/
def sfxLabel : List Char := ['s', 'f', 'x', ':']

/-- Error thrown when the split yields no non-blank block. -/
def errNoPanels : List Char :=
  "Script parsing failed: Could not find any panels in the generated text.".toList

/-- Error thrown when blocks exist but none yields a panel record. -/
def errNoData : List Char :=
  "Script parsing failed: Found panel blocks but could not extract panel data.".toList

/-- Error thrown when parsing yields fewer than 4 panels. -/
def errTooFew : List Char :=
  "Failed to generate a valid script with at least 4 panels.".toList

/-- `parseInt(ds, 10)` on a non-empty digit string, as an exact natural. -/
def digitsToNat (ds : List Char) : Nat :=
  ds.foldl (fun n c => n * 10 + (c.toNat - '0'.toNat)) 0

/-- Whether the case-sensitive pattern `Panel \d+:` matches at the start of
`s` (the split regex `/(?=Panel \d+:)/`): the literal `Panel `, then a
maximal non-empty digit run, then `:`. -/
def isPanelMarker (s : List Char) : Bool :=
  panelLit.isPrefixOf s &&
    !((s.drop 6).takeWhile Char.isDigit).isEmpty &&
    (((s.drop 6).drop ((s.drop 6).takeWhile Char.isDigit).length).head?
      == some ':')

/-- The non-consuming split `scriptText.split(/(?=Panel \d+:)/)`: a new
block begins at every position where the marker matches, except position 0
(JavaScript's `split` never splits at a zero-width match at index 0).
`acc` holds the current block reversed; it is empty exactly at position 0. -/
def splitAux (acc : List Char) : List Char → List (List Char)
  | [] => [acc.reverse]
  | c :: rest =>
    if isPanelMarker (c :: rest) && !acc.isEmpty then
      acc.reverse :: splitAux [c] rest
    else
      splitAux (c :: acc) rest

/-- Case-insensitive prefix test (ASCII folding, as the `/i` flag acts on
the ASCII-only patterns in the source). -/
def ciIsPref : List Char → List Char → Bool
  | [], _ => true
  | _ :: _, [] => false
  | p :: ps, c :: cs => (p.toLower == c.toLower) && ciIsPref ps cs

/-- Leftmost case-insensitive occurrence of `pat`; returns the remainder of
the string after the matched occurrence, or `none`. -/
def findCIRest (pat : List Char) : List Char → Option (List Char)
  | [] => if ciIsPref pat [] then some [] else none
  | c :: rest =>
    if ciIsPref pat (c :: rest) then some ((c :: rest).drop pat.length)
    else findCIRest pat rest

/-- Lazy capture up to the first position where one of the stop labels
matches case-insensitively (the lookahead `(?=Stop1|Stop2|$)`); captures
the whole remainder when no stop occurs. -/
def takeUntilStops (stops : List (List Char)) : List Char → List Char
  | [] => []
  | c :: rest =>
    if stops.any (fun p => ciIsPref p (c :: rest)) then []
    else c :: takeUntilStops stops rest

/-- The capture of `/Label:\s*([\s\S]*?)(?=Stop…|$)/i` on a block: find the
leftmost case-insensitive `label`, skip the greedy whitespace run, then
capture lazily up to the first stop label or end of block. -/
def extractSection (label : List Char) (stops : List (List Char))
    (b : List Char) : Option (List Char) :=
  (findCIRest label b).map (fun r => takeUntilStops stops (r.dropWhile jsWS))

/-- The `description` field of a block: the trimmed capture, or the fixed
placeholder when the label is absent. -/
def descField (b : List Char) : List Char :=
  match extractSection descLabel [dlgLabel, sfxLabel] b with
  | some c => trim c
  | none => "No description provided.".toList

/-- The `dialogue` field of a block: the trimmed capture, or empty. -/
def dlgField (b : List Char) : List Char :=
  match extractSection dlgLabel [sfxLabel] b with
  | some c => trim c
  | none => []

/-- The `sfx` field of a block: absent when the label is missing or the
trimmed capture is empty (JavaScript truthiness of the trimmed string). -/
def sfxField (b : List Char) : Option (List Char) :=
  match extractSection sfxLabel [] b with
  | some c => if (trim c).isEmpty then none else some (trim c)
  | none => none

/-- The header match `Panel (\d+):` (case-insensitive) at the start of `s`:
returns the parsed digits when `panel ` (ci), a non-empty maximal digit run
and `:` follow. -/
def panelHeadNum (s : List Char) : Option Nat :=
  if ciIsPref panelCI s &&
      !((s.drop 6).takeWhile Char.isDigit).isEmpty &&
      (((s.drop 6).drop ((s.drop 6).takeWhile Char.isDigit).length).head?
        == some ':') then
    some (digitsToNat ((s.drop 6).takeWhile Char.isDigit))
  else none

/-- `block.match(/^Panel (\d+):/im)`: scan left to right, attempting the
header only at line starts (position 0 or after a line terminator), and
return the first successful match's number. -/
def findPanelNum : Bool → List Char → Option Nat
  | _, [] => none
  | lineStart, c :: rest =>
    match (if lineStart then panelHeadNum (c :: rest) else none) with
    | some n => some n
    | none => findPanelNum (isLineTerm c) rest

/-- The panel ordinal of a block, with `0` as the sentinel for "no match"
(`panelNumMatch ? parseInt(...) : 0`). -/
def panelOrd (b : List Char) : Nat :=
  (findPanelNum true b).getD 0

/-- A parsed panel record (`interface PanelScript`). -/
structure PanelScript where
  panel : Nat
  description : List Char
  dialogue : List Char
  sfx : Option (List Char)
deriving DecidableEq, Repr

/-- Per-block record extraction: a record is emitted only when the
extracted ordinal is positive. -/
def parseBlock (b : List Char) : Option PanelScript :=
  if 0 < panelOrd b then
    some ⟨panelOrd b, descField b, dlgField b, sfxField b⟩
  else none

/-- Stable insertion of a record into a list sorted ascending by `panel`:
the new record goes after all existing records with `panel ≤` its own. -/
def insertPanel (x : PanelScript) : List PanelScript → List PanelScript
  | [] => [x]
  | y :: ys => if y.panel ≤ x.panel then y :: insertPanel x ys else x :: y :: ys

/-- `panels.sort((a, b) => a.panel - b.panel)`: a stable ascending sort by
`panel`, embedded as stable insertion sort. -/
def sortPanels (l : List PanelScript) : List PanelScript :=
  l.foldl (fun acc x => insertPanel x acc) []

/-- The non-blank blocks of the script text
(`scriptText.split(/(?=Panel \d+:)/).filter(b => b.trim() !== '')`). -/
def panelBlocks (s : List Char) : List (List Char) :=
  (splitAux [] s).filter (fun b => !(trim b).isEmpty)

/-- `parseScript` from `src/index.tsx`: split into blocks, extract a record
from each block with a positive ordinal, fail when no block or no record
survives, and return the records sorted ascending by `panel`. -/
def parseScript (s : List Char) : Except (List Char) (List PanelScript) :=
  let bl := panelBlocks s
  if bl.isEmpty then .error errNoPanels
  else
    let panels := bl.filterMap parseBlock
    if panels.isEmpty then .error errNoData
    else .ok (sortPanels panels)

/-- A panel record extended with the mutable image slot
(`interface MangaPanelData`); `imageUrl` is `none` for JavaScript `null`. -/
structure MangaPanelData where
  panel : Nat
  description : List Char
  dialogue : List Char
  sfx : Option (List Char)
  imageUrl : Option (List Char)
deriving DecidableEq, Repr

/-- `{ ...script, imageUrl }`: a `MangaPanelData` built from a script
record and an image slot. -/
def mkPanel (p : PanelScript) (u : Option (List Char)) : MangaPanelData :=
  ⟨p.panel, p.description, p.dialogue, p.sfx, u⟩

/-- `newPanels[i].imageUrl = imageUrl` on a single record. -/
def setU (u : Option (List Char)) (d : MangaPanelData) : MangaPanelData :=
  { d with imageUrl := u }

/-- The per-step state update published by the loop body
(`setMangaPanels`): replace the image slot of the record at index `i`,
leaving every other index unchanged. -/
def setImg : List MangaPanelData → Nat → Option (List Char) →
    List MangaPanelData
  | [], _, _ => []
  | d :: ds, 0, u => setU u d :: ds
  | d :: ds, n + 1, u => d :: setImg ds n u

/-- `scriptData.map(script => ({ ...script, imageUrl: null }))`: the
initial placeholder collection. -/
def hydrate0 (ps : List PanelScript) : List MangaPanelData :=
  ps.map (fun p => mkPanel p none)

/-- Observable outcome of the image loop: the final collection, the states
published by the loop body in order, the transport error (if one aborted
the loop) and the indices for which an image request was issued. -/
structure RunResult where
  final : List MangaPanelData
  pubs : List (List MangaPanelData)
  err : Option (List Char)
  requested : List Nat
deriving DecidableEq, Repr

/-- The image loop of `handleGenerateManga`, from index `i` with `k`
iterations left: issue the request for `i`; a rejection aborts the loop at
once (the `catch` block touches only the error message, not the
collection); a response (with or without a decodable image) updates index
`i` and publishes, then the loop proceeds to `i + 1`. -/
def runFrom (req : Nat → Except (List Char) (Option (List Char)))
    (st : List MangaPanelData) (i : Nat) : Nat → RunResult
  | 0 => ⟨st, [], none, []⟩
  | k + 1 =>
    match req i with
    | .error e => ⟨st, [], some e, [i]⟩
    | .ok u =>
      let st' := setImg st i u
      let r := runFrom req st' (i + 1) k
      ⟨r.final, st' :: r.pubs, r.err, i :: r.requested⟩

/-- Hydration of a parsed panel list: synchronously publish the
placeholder collection, then run the sequential image loop over all
indices.  `pubs` lists every published state, the placeholder collection
first. -/
def hydrateRun (ps : List PanelScript)
    (req : Nat → Except (List Char) (Option (List Char))) : RunResult :=
  let init := hydrate0 ps
  let r := runFrom req init 0 ps.length
  ⟨r.final, init :: r.pubs, r.err, r.requested⟩

/-- Observable outcome of a whole generation run: the collection as left
by the run, and the error reported to the user (if any). -/
structure GenOutcome where
  collection : List MangaPanelData
  error : Option (List Char)
deriving DecidableEq, Repr

/-- `handleGenerateManga` after the script response arrived: the
collection is cleared, the script is parsed (a parse error leaves the
collection empty), a script with fewer than 4 panels is rejected with the
collection still empty, and otherwise the hydration run is performed. -/
def handleGenerateManga (scriptText : List Char)
    (req : Nat → Except (List Char) (Option (List Char))) : GenOutcome :=
  match parseScript scriptText with
  | .error e => ⟨[], some e⟩
  | .ok scriptData =>
    if scriptData.length < 4 then ⟨[], some errTooFew⟩
    else
      let r := hydrateRun scriptData req
      ⟨r.final, r.err⟩

/-- A well-formed panel block, as in the testable property "for all
well-formed input text with K panel markers each having `panel > 0`": the
block is a marker line `Panel <digits>:` (positive value) followed by
arbitrary text that contains no further occurrence of the marker-opening
literal `Panel`. -/
def WFBlock (b : List Char) : Prop :=
  ∃ ds t, b = panelLit ++ ds ++ ':' :: t ∧ ds ≠ [] ∧
    (∀ c ∈ ds, c.isDigit = true) ∧ 0 < digitsToNat ds ∧
    (∀ q, panel5.isPrefixOf (t.drop q) = false)

/-! ### Basic helper lemmas -/

theorem mem_of_trim_eq_nil {s : List Char} (h : trim s = []) :
    ∀ c ∈ s, jsWS c = true := by
  unfold trim at h
  rw [List.reverse_eq_nil_iff, List.dropWhile_eq_nil_iff] at h
  intro c hc
  rcases (List.mem_append.mp
      ((List.takeWhile_append_dropWhile jsWS s) ▸ hc)) with h1 | h2
  · exact List.mem_takeWhile_imp h1
  · exact h c (List.mem_reverse.mpr h2)

theorem trim_ne_nil {s : List Char} {c : Char} (hc : c ∈ s)
    (hw : jsWS c = false) : trim s ≠ [] := by
  intro h
  rw [mem_of_trim_eq_nil h c hc] at hw
  exact Bool.true_eq_false.mp hw

theorem tail_safe_of_ball {t : List Char}
    (h : ∀ q, q < t.length → panel5.isPrefixOf (t.drop q) = false) :
    ∀ q, panel5.isPrefixOf (t.drop q) = false := by
  intro q
  by_cases hq : q < t.length
  · exact h q hq
  · rw [List.drop_eq_nil_of_le (Nat.le_of_not_lt hq)]
    decide

theorem marker_safe_of_ball {s : List Char}
    (h : ∀ p, p < s.length → isPanelMarker (s.drop p) = false) :
    ∀ p, isPanelMarker (s.drop p) = false := by
  intro p
  by_cases hp : p < s.length
  · exact h p hp
  · rw [List.drop_eq_nil_of_le (Nat.le_of_not_lt hp)]
    decide

/-! ### Stable sort lemmas -/

theorem insertPanel_length (x : PanelScript) (l : List PanelScript) :
    (insertPanel x l).length = l.length + 1 := by
  induction l with
  | nil => rfl
  | cons y ys ih =>
    unfold insertPanel
    by_cases h : y.panel ≤ x.panel <;> simp [h, ih]

theorem mem_insertPanel {x z : PanelScript} {l : List PanelScript} :
    z ∈ insertPanel x l ↔ z = x ∨ z ∈ l := by
  induction l with
  | nil => simp [insertPanel]
  | cons y ys ih =>
    unfold insertPanel
    by_cases h : y.panel ≤ x.panel
    · simp only [if_pos h, List.mem_cons, ih]
      try tauto
    · simp only [if_neg h, List.mem_cons]
      try tauto

theorem insertPanel_pairwise {x : PanelScript} {l : List PanelScript}
    (hl : List.Pairwise (fun a b => a.panel ≤ b.panel) l) :
    List.Pairwise (fun a b => a.panel ≤ b.panel) (insertPanel x l) := by
  induction l with
  | nil => simp [insertPanel]
  | cons y ys ih =>
    rcases List.pairwise_cons.mp hl with ⟨hy, hys⟩
    unfold insertPanel
    by_cases h : y.panel ≤ x.panel
    · simp only [if_pos h]
      refine List.pairwise_cons.mpr ⟨?_, ih hys⟩
      intro z hz
      rcases mem_insertPanel.mp hz with rfl | hz'
      · exact h
      · exact hy z hz'
    · simp only [if_neg h]
      refine List.pairwise_cons.mpr ⟨?_, hl⟩
      intro z hz
      rcases List.mem_cons.mp hz with rfl | hz'
      · exact Nat.le_of_lt (Nat.lt_of_not_le h)
      · exact Nat.le_trans (Nat.le_of_lt (Nat.lt_of_not_le h)) (hy z hz')

theorem foldl_insert_length (l : List PanelScript) :
    ∀ acc : List PanelScript,
      (l.foldl (fun a x => insertPanel x a) acc).length =
        acc.length + l.length := by
  induction l with
  | nil => intro acc; rfl
  | cons y ys ih =>
    intro acc
    simp only [List.foldl_cons, ih, insertPanel_length, List.length_cons]
    omega

theorem mem_foldl_insert {z : PanelScript} (l : List PanelScript) :
    ∀ acc : List PanelScript,
      (z ∈ l.foldl (fun a x => insertPanel x a) acc ↔ z ∈ acc ∨ z ∈ l) := by
  induction l with
  | nil => intro acc; simp
  | cons y ys ih =>
    intro acc
    simp only [List.foldl_cons, ih, mem_insertPanel, List.mem_cons]
    tauto

theorem foldl_insert_pairwise (l : List PanelScript) :
    ∀ acc : List PanelScript,
      List.Pairwise (fun a b => a.panel ≤ b.panel) acc →
      List.Pairwise (fun a b => a.panel ≤ b.panel)
        (l.foldl (fun a x => insertPanel x a) acc) := by
  induction l with
  | nil => intro acc h; exact h
  | cons y ys ih =>
    intro acc h
    exact ih _ (insertPanel_pairwise h)

theorem sortPanels_length (l : List PanelScript) :
    (sortPanels l).length = l.length := by
  unfold sortPanels
  rw [foldl_insert_length]
  simp

theorem mem_sortPanels {z : PanelScript} {l : List PanelScript} :
    z ∈ sortPanels l ↔ z ∈ l := by
  unfold sortPanels
  rw [mem_foldl_insert]
  simp

theorem sortPanels_pairwise (l : List PanelScript) :
    List.Pairwise (fun a b => a.panel ≤ b.panel) (sortPanels l) :=
  foldl_insert_pairwise l [] List.Pairwise.nil

/-! ### Characterizing the non-consuming split on well-formed input -/

theorem pref_append_split : ∀ (p u r : List Char),
    p.isPrefixOf (u ++ r) = true →
    p.isPrefixOf u = true ∨
      (u.isPrefixOf p = true ∧ (p.drop u.length).isPrefixOf r = true) := by
  intro p u
  induction u generalizing p with
  | nil =>
    intro r h
    right
    exact ⟨by simp [List.isPrefixOf], by simpa using h⟩
  | cons c u' ih =>
    intro r h
    cases p with
    | nil => left; rfl
    | cons d p' =>
      rw [List.cons_append] at h
      simp only [List.isPrefixOf, Bool.and_eq_true, beq_iff_eq] at h
      rcases h with ⟨rfl, h2⟩
      rcases ih p' r h2 with h3 | ⟨h3, h4⟩
      · left
        simp [List.isPrefixOf, h3]
      · right
        constructor
        · simp [List.isPrefixOf, h3]
        · simpa using h4

theorem marker_imp_panel5 {s : List Char} (h : isPanelMarker s = true) :
    panel5.isPrefixOf s = true := by
  unfold isPanelMarker at h
  simp only [Bool.and_eq_true] at h
  obtain ⟨⟨h1, _⟩, _⟩ := h
  rw [List.isPrefixOf_iff_prefix] at h1 ⊢
  exact List.IsPrefix.trans ⟨[' '], rfl⟩ h1

theorem panel5_pref_head {c : Char} {l : List Char}
    (h : panel5.isPrefixOf (c :: l) = true) : c = 'P' := by
  unfold panel5 at h
  simp only [List.isPrefixOf, Bool.and_eq_true, beq_iff_eq] at h
  exact h.1.symm

theorem panel5_drop_head :
    ∀ k, k < 5 → 0 < k → ¬((panel5.drop k).head? = some 'P') := by decide

theorem digit_ne_P {c : Char} (h : c.isDigit = true) : c ≠ 'P' := by
  intro he
  subst he
  exact absurd h (by decide)

theorem cross_safe {t r : List Char}
    (ht : ∀ q, panel5.isPrefixOf (t.drop q) = false)
    (hr : r = [] ∨ panelLit.isPrefixOf r = true) :
    ∀ q, t.drop q ≠ [] → panel5.isPrefixOf (t.drop q ++ r) = false := by
  intro q hne
  by_contra hcon
  rw [Bool.not_eq_false] at hcon
  rcases pref_append_split panel5 (t.drop q) r hcon with h1 | ⟨h2, h3⟩
  · rw [ht q] at h1
    exact Bool.false_ne_true h1
  · have hlen : (t.drop q).length ≤ 5 := by
      have := List.IsPrefix.length_le (List.isPrefixOf_iff_prefix.mp h2)
      simpa [panel5] using this
    have hpos : 0 < (t.drop q).length := List.length_pos.mpr hne
    rcases Nat.lt_or_ge (t.drop q).length 5 with h5 | h5
    · rcases hr with rfl | hP
      · cases hd5 : panel5.drop (t.drop q).length with
        | nil =>
          have hgap : panel5.length - (t.drop q).length = 0 := by
            have := congrArg List.length hd5
            simpa [List.length_drop] using this
          have h5len : panel5.length = 5 := rfl
          omega
        | cons a as =>
          rw [hd5] at h3
          simp [List.isPrefixOf] at h3
      · cases hrr : r with
        | nil =>
          rw [hrr] at hP
          simp [panelLit, List.isPrefixOf] at hP
        | cons c r' =>
          rw [hrr] at hP h3
          have hcP : c = 'P' := by
            unfold panelLit at hP
            simp only [List.isPrefixOf, Bool.and_eq_true, beq_iff_eq] at hP
            exact hP.1.symm
          subst hcP
          cases hd : panel5.drop (t.drop q).length with
          | nil =>
            have hgap : panel5.length - (t.drop q).length = 0 := by
              have := congrArg List.length hd
              simpa [List.length_drop] using this
            have h5len : panel5.length = 5 := rfl
            omega
          | cons a as =>
            rw [hd] at h3
            have haP : a = 'P' := by
              simp only [List.isPrefixOf, Bool.and_eq_true, beq_iff_eq] at h3
              exact h3.1
            have hnot := panel5_drop_head (t.drop q).length h5 hpos
            rw [hd, haP] at hnot
            exact hnot rfl
    · have h55 : (t.drop q).length = 5 := Nat.le_antisymm hlen h5
      have heq5 : t.drop q = panel5 :=
        List.IsPrefix.eq_of_length (List.isPrefixOf_iff_prefix.mp h2)
          (by simp [panel5, h55])
      have htq := ht q
      rw [heq5] at htq
      exact absurd htq (by decide)

theorem head2_not_P {ds : List Char} (hds : ∀ c ∈ ds, c.isDigit = true)
    {c : Char}
    (hc : c ∈ ('a' :: 'n' :: 'e' :: 'l' :: ' ' :: (ds ++ [':']) : List Char)) :
    c ≠ 'P' := by
  simp only [List.mem_cons, List.mem_append, List.mem_singleton] at hc
  rcases hc with rfl | rfl | rfl | rfl | rfl | hc | rfl | h0
  · decide
  · decide
  · decide
  · decide
  · decide
  · exact digit_ne_P (hds c hc)
  · decide
  · simp at h0

theorem block_no_internal {ds t r : List Char}
    (hds : ∀ c ∈ ds, c.isDigit = true)
    (ht : ∀ q, panel5.isPrefixOf (t.drop q) = false)
    (hr : r = [] ∨ panelLit.isPrefixOf r = true) :
    ∀ w₁ w₂, panelLit ++ ds ++ ':' :: t = w₁ ++ w₂ → w₁ ≠ [] → w₂ ≠ [] →
      isPanelMarker (w₂ ++ r) = false := by
  intro w₁ w₂ heq hw1 hw2
  by_contra hcon
  rw [Bool.not_eq_false] at hcon
  have h5 := marker_imp_panel5 hcon
  cases w₂ with
  | nil => exact hw2 rfl
  | cons c w₂' =>
    rw [List.cons_append] at h5
    have hcP : c = 'P' := panel5_pref_head h5
    subst hcP
    cases w₁ with
    | nil => exact hw1 rfl
    | cons a w₁' =>
      have hb : ('P' : Char) ::
          ('a' :: 'n' :: 'e' :: 'l' :: ' ' :: (ds ++ ':' :: t)) =
          a :: (w₁' ++ 'P' :: w₂') := heq
      injection hb with _ hbody
      have hbody2 :
          ('a' :: 'n' :: 'e' :: 'l' :: ' ' :: (ds ++ [':']) : List Char) ++ t =
          w₁' ++ 'P' :: w₂' := by
        rw [← hbody]
        simp [List.append_assoc]
      rcases List.append_eq_append_iff.mp hbody2.symm with
        ⟨a', ha1, ha2⟩ | ⟨c', hc1, hc2⟩
      · cases a' with
        | nil =>
          rw [List.nil_append] at ha2
          have hcross := cross_safe ht hr 0 (by rw [List.drop_zero, ← ha2]; simp)
          rw [List.drop_zero, ← ha2, List.cons_append] at hcross
          rw [hcross] at h5
          exact Bool.false_ne_true h5
        | cons e a'' =>
          rw [List.cons_append] at ha2
          injection ha2 with he _
          rw [← he] at ha1
          have hmem : ('P' : Char) ∈
              ('a' :: 'n' :: 'e' :: 'l' :: ' ' :: (ds ++ [':']) : List Char) := by
            rw [ha1]
            exact List.mem_append.mpr (Or.inr (by simp))
          exact head2_not_P hds hmem rfl
      · have hdropt : t.drop c'.length = 'P' :: w₂' := by
          rw [hc2, List.drop_left]
        have hcross := cross_safe ht hr c'.length (by rw [hdropt]; simp)
        rw [hdropt, List.cons_append] at hcross
        rw [hcross] at h5
        exact Bool.false_ne_true h5

theorem splitAux_cons_pos {acc : List Char} {c : Char} {rest : List Char}
    (h : isPanelMarker (c :: rest) = true) (ha : acc ≠ []) :
    splitAux acc (c :: rest) = acc.reverse :: splitAux [c] rest := by
  have hae : acc.isEmpty = false := by
    cases acc with
    | nil => exact absurd rfl ha
    | cons a as => rfl
  simp [splitAux, h, hae]

theorem splitAux_cons_neg {acc : List Char} {c : Char} {rest : List Char}
    (h : isPanelMarker (c :: rest) = false ∨ acc = []) :
    splitAux acc (c :: rest) = splitAux (c :: acc) rest := by
  rcases h with h | rfl
  · simp [splitAux, h]
  · simp [splitAux]

theorem splitAux_consume : ∀ (w acc v : List Char),
    (∀ w₁ w₂, w = w₁ ++ w₂ → w₂ ≠ [] → (w₁ ≠ [] ∨ acc ≠ []) →
      isPanelMarker (w₂ ++ v) = false) →
    splitAux acc (w ++ v) = splitAux (w.reverse ++ acc) v := by
  intro w
  induction w with
  | nil => intro acc v _; simp
  | cons c w' ih =>
    intro acc v hm
    have hstep : splitAux acc ((c :: w') ++ v) = splitAux (c :: acc) (w' ++ v) := by
      rw [List.cons_append]
      apply splitAux_cons_neg
      cases acc with
      | nil => exact Or.inr rfl
      | cons a as =>
        left
        have := hm [] (c :: w') rfl (by simp) (Or.inr (by simp))
        simpa using this
    rw [hstep, ih (c :: acc) v ?_]
    · simp
    · intro w₁ w₂ he hne _
      refine hm (c :: w₁) w₂ ?_ hne (Or.inl (by simp))
      rw [List.cons_append, he]

theorem takeWhile_append_stop {p : Char → Bool} {ds : List Char}
    (hds : ∀ c ∈ ds, p c = true) {c₀ : Char} (hc : p c₀ = false)
    (y : List Char) : (ds ++ c₀ :: y).takeWhile p = ds := by
  induction ds with
  | nil => simp [List.takeWhile_cons, hc]
  | cons d ds' ih =>
    have hd : p d = true := hds d (by simp)
    simp only [List.cons_append, List.takeWhile_cons, hd, if_pos]
    rw [ih (fun c hc' => hds c (by simp [hc']))]

theorem marker_of_block (ds t r : List Char) (hne : ds ≠ [])
    (hds : ∀ c ∈ ds, c.isDigit = true) :
    isPanelMarker ((panelLit ++ ds ++ ':' :: t) ++ r) = true := by
  have heq : (panelLit ++ ds ++ ':' :: t) ++ r =
      panelLit ++ (ds ++ ':' :: (t ++ r)) := by
    simp [List.append_assoc]
  unfold isPanelMarker
  rw [heq]
  have hdrop : (panelLit ++ (ds ++ ':' :: (t ++ r))).drop 6 =
      ds ++ ':' :: (t ++ r) := by
    have h6 : panelLit.length = 6 := rfl
    rw [← h6, List.drop_left]
  rw [hdrop, takeWhile_append_stop hds (by decide) (t ++ r), List.drop_left]
  have hie : ds.isEmpty = false := by
    cases ds with
    | nil => exact absurd rfl hne
    | cons a l => rfl
  rw [hie]
  have hpre : panelLit.isPrefixOf (panelLit ++ (ds ++ ':' :: (t ++ r))) = true := by
    rw [List.isPrefixOf_iff_prefix]
    exact List.prefix_append _ _
  rw [hpre]
  rfl

theorem join_head_marker {bs : List (List Char)}
    (h : ∀ b ∈ bs, WFBlock b) :
    bs.flatten = [] ∨ panelLit.isPrefixOf bs.flatten = true := by
  cases bs with
  | nil => left; rfl
  | cons b bs' =>
    right
    obtain ⟨ds, t, rfl, _, _, _, _⟩ := h b (by simp)
    rw [List.flatten_cons, List.isPrefixOf_iff_prefix, List.append_assoc,
      List.append_assoc]
    exact List.prefix_append _ _

theorem consume_block {ds t v : List Char}
    (hds : ∀ c ∈ ds, c.isDigit = true)
    (ht : ∀ q, panel5.isPrefixOf (t.drop q) = false)
    (hv : v = [] ∨ panelLit.isPrefixOf v = true) :
    splitAux ['P'] (('a' :: 'n' :: 'e' :: 'l' :: ' ' :: (ds ++ ':' :: t)) ++ v) =
      splitAux (panelLit ++ ds ++ ':' :: t).reverse v := by
  rw [splitAux_consume _ _ _ ?_]
  · rw [← List.reverse_cons]
    rfl
  · intro w₁ w₂ he hne _
    refine block_no_internal hds ht hv ('P' :: w₁) w₂ ?_ (by simp) hne
    show ('P' : Char) :: ('a' :: 'n' :: 'e' :: 'l' :: ' ' :: (ds ++ ':' :: t)) =
      ('P' :: w₁) ++ w₂
    rw [List.cons_append, ← he]

theorem splitAux_blocks : ∀ (bs : List (List Char)) (acc : List Char),
    acc ≠ [] → (∀ b ∈ bs, WFBlock b) →
    splitAux acc bs.flatten = acc.reverse :: bs := by
  intro bs
  induction bs with
  | nil =>
    intro acc _ _
    simp [splitAux]
  | cons b bs' ih =>
    intro acc hne hwf
    obtain ⟨ds, t, hb, hdne, hds, hdpos, ht⟩ := hwf b (by simp)
    subst hb
    rw [List.flatten_cons]
    have hmark : isPanelMarker ((panelLit ++ ds ++ ':' :: t) ++ bs'.flatten) = true :=
      marker_of_block ds t bs'.flatten hdne hds
    have hsplit :
        splitAux acc ((panelLit ++ ds ++ ':' :: t) ++ bs'.flatten) =
          acc.reverse :: splitAux ['P']
            (('a' :: 'n' :: 'e' :: 'l' :: ' ' :: (ds ++ ':' :: t)) ++ bs'.flatten) :=
      splitAux_cons_pos hmark hne
    rw [hsplit,
      consume_block hds ht (join_head_marker (fun b hb => hwf b (by simp [hb]))),
      ih _ (by simp [panelLit]) (fun b hb => hwf b (by simp [hb]))]
    simp

theorem splitAux_flatten {bs : List (List Char)} (hne : bs ≠ [])
    (hwf : ∀ b ∈ bs, WFBlock b) : splitAux [] bs.flatten = bs := by
  cases bs with
  | nil => exact absurd rfl hne
  | cons b bs' =>
    obtain ⟨ds, t, hb, hdne, hds, hdpos, ht⟩ := hwf b (by simp)
    subst hb
    rw [List.flatten_cons]
    have hstep :
        splitAux [] ((panelLit ++ ds ++ ':' :: t) ++ bs'.flatten) =
          splitAux ['P']
            (('a' :: 'n' :: 'e' :: 'l' :: ' ' :: (ds ++ ':' :: t)) ++ bs'.flatten) :=
      splitAux_cons_neg (Or.inr rfl)
    rw [hstep,
      consume_block hds ht (join_head_marker (fun b hb => hwf b (by simp [hb])))]
    cases bs' with
    | nil =>
      simp [splitAux]
    | cons b₂ bs'' =>
      rw [splitAux_blocks (b₂ :: bs'') _ (by simp [panelLit])
        (fun b hb => hwf b (by simp [hb]))]
      simp

theorem WFBlock_trim_ne_nil {b : List Char} (h : WFBlock b) :
    trim b ≠ [] := by
  obtain ⟨ds, t, rfl, _, _, _, _⟩ := h
  exact @trim_ne_nil (panelLit ++ ds ++ ':' :: t) 'P' (by simp [panelLit])
    (by decide)

theorem panelBlocks_flatten {bs : List (List Char)} (hne : bs ≠ [])
    (hwf : ∀ b ∈ bs, WFBlock b) : panelBlocks bs.flatten = bs := by
  unfold panelBlocks
  rw [splitAux_flatten hne hwf]
  apply List.filter_eq_self.mpr
  intro b hb
  have := WFBlock_trim_ne_nil (hwf b hb)
  cases htr : trim b with
  | nil => exact absurd htr this
  | cons x xs => rfl

/-! ### Per-block extraction on well-formed blocks -/

theorem ciPref_panelLit (x : List Char) :
    ciIsPref panelCI (panelLit ++ x) = true := rfl

theorem panelHeadNum_block (ds t : List Char) (hne : ds ≠ [])
    (hds : ∀ c ∈ ds, c.isDigit = true) :
    panelHeadNum (panelLit ++ ds ++ ':' :: t) = some (digitsToNat ds) := by
  have hassoc : panelLit ++ ds ++ ':' :: t = panelLit ++ (ds ++ ':' :: t) := by
    rw [List.append_assoc]
  unfold panelHeadNum
  rw [hassoc]
  have hdrop : (panelLit ++ (ds ++ ':' :: t)).drop 6 = ds ++ ':' :: t := by
    have h6 : panelLit.length = 6 := rfl
    rw [← h6, List.drop_left]
  rw [hdrop, takeWhile_append_stop hds (by decide) t, List.drop_left,
    ciPref_panelLit]
  have hie : ds.isEmpty = false := by
    cases ds with
    | nil => exact absurd rfl hne
    | cons a l => rfl
  rw [hie]
  rfl

theorem findPanelNum_block (ds t : List Char) (hne : ds ≠ [])
    (hds : ∀ c ∈ ds, c.isDigit = true) :
    findPanelNum true (panelLit ++ ds ++ ':' :: t) = some (digitsToNat ds) := by
  have hh : panelHeadNum
      (('P' : Char) :: ('a' :: 'n' :: 'e' :: 'l' :: ' ' :: (ds ++ ':' :: t))) =
      some (digitsToNat ds) := panelHeadNum_block ds t hne hds
  show findPanelNum true
    (('P' : Char) :: ('a' :: 'n' :: 'e' :: 'l' :: ' ' :: (ds ++ ':' :: t))) =
    some (digitsToNat ds)
  rw [findPanelNum, if_pos rfl, hh]

theorem panelOrd_block (ds t : List Char) (hne : ds ≠ [])
    (hds : ∀ c ∈ ds, c.isDigit = true) :
    panelOrd (panelLit ++ ds ++ ':' :: t) = digitsToNat ds := by
  unfold panelOrd
  rw [findPanelNum_block ds t hne hds]
  rfl

theorem parseBlock_WF {b : List Char} (h : WFBlock b) :
    ∃ r, parseBlock b = some r ∧ 0 < r.panel := by
  obtain ⟨ds, t, rfl, hne, hds, hpos, _⟩ := h
  have hord := panelOrd_block ds t hne hds
  unfold parseBlock
  rw [hord, if_pos hpos]
  exact ⟨_, rfl, hpos⟩

theorem filterMap_length_all {α β : Type} (f : α → Option β) :
    ∀ l : List α, (∀ a ∈ l, (f a).isSome = true) →
      (l.filterMap f).length = l.length := by
  intro l
  induction l with
  | nil => intro _; rfl
  | cons a l' ih =>
    intro h
    have ha := h a (by simp)
    cases hfa : f a with
    | none => rw [hfa] at ha; exact absurd ha (by simp)
    | some b =>
      rw [List.filterMap_cons, hfa]
      simp only [List.length_cons]
      rw [ih (fun x hx => h x (by simp [hx]))]

/-! ### Claim C1 -/

/-- C1: For every well-formed input text containing K panel markers (a
line `Panel N:` with N a positive integer) each having `panel > 0`,
`parseScript` returns exactly K records, and the returned sequence is
sorted ascending by the `panel` field.  Well-formed input is modelled as
the concatenation of K `WFBlock` blocks. -/
theorem claim_C1 (bs : List (List Char)) (hne : bs ≠ [])
    (hwf : ∀ b ∈ bs, WFBlock b) :
    ∃ l, parseScript bs.flatten = Except.ok l ∧ l.length = bs.length ∧
      List.Pairwise (fun a b => a.panel ≤ b.panel) l := by
  have hpb := panelBlocks_flatten hne hwf
  have hall : ∀ b ∈ bs, (parseBlock b).isSome = true := fun b hb => by
    obtain ⟨r, hr, _⟩ := parseBlock_WF (hwf b hb)
    simp [hr]
  have hlen := filterMap_length_all parseBlock bs hall
  have hbe : bs.isEmpty = false := by
    cases bs with
    | nil => exact absurd rfl hne
    | cons _ _ => rfl
  have hfe : (bs.filterMap parseBlock).isEmpty = false := by
    cases hfm : bs.filterMap parseBlock with
    | nil =>
      rw [hfm] at hlen
      cases bs with
      | nil => exact absurd rfl hne
      | cons _ _ => simp at hlen
    | cons _ _ => rfl
  refine ⟨sortPanels (bs.filterMap parseBlock), ?_, ?_, ?_⟩
  · simp only [parseScript]
    rw [hpb, hbe, hfe]
    simp
  · rw [sortPanels_length, hlen]
  · exact sortPanels_pairwise _

/-- Witness for C1: a concrete well-formed two-block input (declared out
of order) parses to exactly two records sorted by `panel`. -/
theorem claim_C1_witness :
    ∃ l, parseScript
        (["Panel 2: a\n".toList, "Panel 1: b".toList] : List (List Char)).flatten =
        Except.ok l ∧
      l.length =
        (["Panel 2: a\n".toList, "Panel 1: b".toList] : List (List Char)).length ∧
      List.Pairwise (fun a b => a.panel ≤ b.panel) l := by
  refine claim_C1 _ (by simp) ?_
  intro b hb
  simp only [List.mem_cons, List.mem_singleton] at hb
  rcases hb with rfl | rfl | h0
  · exact ⟨['2'], [' ', 'a', '\n'], by decide, by decide, by decide, by decide,
      tail_safe_of_ball (by decide)⟩
  · exact ⟨['1'], [' ', 'b'], by decide, by decide, by decide, by decide,
      tail_safe_of_ball (by decide)⟩
  · simp at h0

/-! ### The error conditions of parseScript -/

theorem parseScript_blocks_nil {s : List Char} (h : panelBlocks s = []) :
    parseScript s = .error errNoPanels := by
  simp [parseScript, h]

theorem parseScript_noRecords {s : List Char} (h1 : panelBlocks s ≠ [])
    (h2 : (panelBlocks s).filterMap parseBlock = []) :
    parseScript s = .error errNoData := by
  have hbe : (panelBlocks s).isEmpty = false := by
    cases hh : panelBlocks s with
    | nil => exact absurd hh h1
    | cons _ _ => rfl
  simp [parseScript, hbe, h2]

theorem parseScript_ok_eq {s : List Char} {l : List PanelScript}
    (h : parseScript s = .ok l) :
    l = sortPanels ((panelBlocks s).filterMap parseBlock) := by
  unfold parseScript at h
  by_cases h1 : (panelBlocks s).isEmpty
  · simp [h1] at h
  · by_cases h2 : ((panelBlocks s).filterMap parseBlock).isEmpty
    · simp [h1, h2] at h
    · simp only [h1, h2, Bool.false_eq_true, if_false] at h
      injection h with h
      exact h.symm

theorem parseBlock_eq_none_iff {b : List Char} :
    parseBlock b = none ↔ panelOrd b = 0 := by
  unfold parseBlock
  by_cases h : 0 < panelOrd b
  · simp only [if_pos h]
    constructor
    · intro hc; cases hc
    · intro hc; omega
  · simp only [if_neg h]
    constructor
    · intro _; omega
    · intro _; trivial

theorem parseBlock_panel_pos {b : List Char} {r : PanelScript}
    (h : parseBlock b = some r) : 0 < r.panel := by
  unfold parseBlock at h
  by_cases h3 : 0 < panelOrd b
  · rw [if_pos h3] at h
    injection h with h
    rw [← h]
    exact h3
  · rw [if_neg h3] at h
    cases h

theorem parseBlock_some_eq {b : List Char} {r : PanelScript}
    (h : parseBlock b = some r) :
    r = ⟨panelOrd b, descField b, dlgField b, sfxField b⟩ := by
  unfold parseBlock at h
  by_cases h3 : 0 < panelOrd b
  · rw [if_pos h3] at h
    injection h with h
    exact h.symm
  · rw [if_neg h3] at h
    cases h

theorem jsWS_toLower_ne_p {c : Char} (h : jsWS c = true) :
    c.toLower ≠ 'p' := by
  unfold jsWS at h
  simp only [Bool.or_eq_true, beq_iff_eq] at h
  repeat' rcases h with h | rfl
  all_goals decide

theorem panelHeadNum_ci {s : List Char} {n : Nat}
    (h : panelHeadNum s = some n) : ciIsPref panelCI s = true := by
  unfold panelHeadNum at h
  by_cases hc : (ciIsPref panelCI s &&
      !((s.drop 6).takeWhile Char.isDigit).isEmpty &&
      (((s.drop 6).drop ((s.drop 6).takeWhile Char.isDigit).length).head?
        == some ':')) = true
  · simp only [Bool.and_eq_true] at hc
    exact hc.1.1
  · rw [if_neg hc] at h
    cases h

theorem findPanelNum_exists_p : ∀ (ls : Bool) (s : List Char) (n : Nat),
    findPanelNum ls s = some n → ∃ c ∈ s, c.toLower = 'p' := by
  intro ls s
  induction s generalizing ls with
  | nil => intro n h; cases h
  | cons c rest ih =>
    intro n h
    rw [findPanelNum] at h
    cases hph : (if ls then panelHeadNum (c :: rest) else none) with
    | some m =>
      have hci : ciIsPref panelCI (c :: rest) = true := by
        by_cases hls : ls
        · rw [if_pos hls] at hph
          exact panelHeadNum_ci hph
        · rw [if_neg hls] at hph
          cases hph
      have hlow : ('p'.toLower == c.toLower) = true := by
        simp only [panelCI, ciIsPref, Bool.and_eq_true] at hci
        exact hci.1
      refine ⟨c, by simp, ?_⟩
      have := beq_iff_eq.mp hlow
      simpa using this.symm
    | none =>
      rw [hph] at h
      obtain ⟨c', hc', hp⟩ := ih (isLineTerm c) n h
      exact ⟨c', by simp [hc'], hp⟩

theorem trim_ne_nil_of_find {s : List Char} {n : Nat}
    (h : findPanelNum true s = some n) : trim s ≠ [] := by
  intro htr
  obtain ⟨c, hc, hp⟩ := findPanelNum_exists_p true s n h
  exact jsWS_toLower_ne_p (mem_of_trim_eq_nil htr c hc) hp

/-! ### Claim C3 -/

/-- C3: `parseScript` fails (throws a parse error) exactly when either no
panel blocks remain after splitting, or blocks exist but no block yields a
panel ordinal greater than zero; in particular both `parse ""` and
`parse "no markers here"` fail with a parse error, and whenever
`parseScript` returns normally its result is non-empty. -/
theorem claim_C3 :
    parseScript [] = Except.error errNoPanels ∧
    parseScript ("no markers here".toList) = Except.error errNoData ∧
    (∀ s : List Char, (∃ e, parseScript s = Except.error e) ↔
      (panelBlocks s = [] ∨
        (panelBlocks s ≠ [] ∧ ∀ b ∈ panelBlocks s, panelOrd b = 0))) ∧
    (∀ (s : List Char) (l : List PanelScript),
      parseScript s = Except.ok l → l ≠ []) := by
  refine ⟨rfl, rfl, ?_, ?_⟩
  · intro s
    constructor
    · rintro ⟨e, he⟩
      by_cases h1 : panelBlocks s = []
      · exact Or.inl h1
      · refine Or.inr ⟨h1, ?_⟩
        by_cases h2 : (panelBlocks s).filterMap parseBlock = []
        · exact fun b hb =>
            parseBlock_eq_none_iff.mp (List.filterMap_eq_nil_iff.mp h2 b hb)
        · have hbe : (panelBlocks s).isEmpty = false := by
            cases hh : panelBlocks s with
            | nil => exact absurd hh h1
            | cons _ _ => rfl
          have hfe : ((panelBlocks s).filterMap parseBlock).isEmpty = false := by
            cases hh : (panelBlocks s).filterMap parseBlock with
            | nil => exact absurd hh h2
            | cons _ _ => rfl
          simp [parseScript, hbe, hfe] at he
    · rintro (h | ⟨h1, h⟩)
      · exact ⟨errNoPanels, parseScript_blocks_nil h⟩
      · refine ⟨errNoData, parseScript_noRecords h1 ?_⟩
        exact List.filterMap_eq_nil_iff.mpr
          (fun b hb => parseBlock_eq_none_iff.mpr (h b hb))
  · intro s l h heq
    subst heq
    by_cases h1 : panelBlocks s = []
    · rw [parseScript_blocks_nil h1] at h
      cases h
    · by_cases h2 : (panelBlocks s).filterMap parseBlock = []
      · rw [parseScript_noRecords h1 h2] at h
        cases h
      · have hl := parseScript_ok_eq h
        have hlen := congrArg List.length hl
        rw [sortPanels_length] at hlen
        cases hfm : (panelBlocks s).filterMap parseBlock with
        | nil => exact h2 hfm
        | cons a l' =>
          rw [hfm] at hlen
          simp at hlen

/-- Witness for C3: the non-emptiness conjunct applied at a concrete
successful parse. -/
theorem claim_C3_witness :
    ([⟨1, "No description provided.".toList, [], none⟩] : List PanelScript) ≠
      [] :=
  claim_C3.2.2.2 ("Panel 1: hi".toList) _ rfl

/-! ### Claim C6 -/

/-- C6 as stated is refuted: on this concrete input `parseScript` succeeds
and returns a record whose `description` is the empty string (the
`Description:` label is present with empty content), so not every returned
record has a non-empty description. -/
theorem claim_C6_counterexample :
    ¬ (∀ l, parseScript ("Panel 1:\nDescription:Dialogue: x".toList) =
        Except.ok l → ∀ r ∈ l, r.description ≠ []) := by
  intro h
  exact h [⟨1, [], "x".toList, none⟩] rfl ⟨1, [], "x".toList, none⟩
    (by simp) rfl

/-- C6 (amended): every record in any sequence returned by `parseScript`
has `panel > 0`; the `description` field may be the empty string (when the
label is present with empty content), so only the panel-positivity half of
the data-model invariant holds. -/
theorem claim_C6 (s : List Char) (l : List PanelScript)
    (h : parseScript s = Except.ok l) : ∀ r ∈ l, 0 < r.panel := by
  intro r hr
  rw [parseScript_ok_eq h, mem_sortPanels] at hr
  obtain ⟨b, _, hpb⟩ := List.mem_filterMap.mp hr
  exact parseBlock_panel_pos hpb

/-- Witness for C6 (amended) at a concrete parse. -/
theorem claim_C6_witness :
    0 < (⟨1, "No description provided.".toList, [], none⟩ : PanelScript).panel :=
  claim_C6 ("Panel 1: hi".toList)
    [⟨1, "No description provided.".toList, [], none⟩] rfl _ (by simp)

/-! ### Claim C8 -/

/-- C8: a block whose extracted panel ordinal is 0 (or whose ordinal could
not be parsed, the same sentinel) yields no record, and this does not
abort the extraction of other blocks: every block of the split whose
extraction yields a record contributes that record to the returned
sequence. -/
theorem claim_C8 :
    (∀ b : List Char, panelOrd b = 0 → parseBlock b = none) ∧
    (∀ (s : List Char) (l : List PanelScript), parseScript s = Except.ok l →
      ∀ b ∈ panelBlocks s, ∀ r, parseBlock b = some r → r ∈ l) := by
  constructor
  · intro b hb
    exact parseBlock_eq_none_iff.mpr hb
  · intro s l h b hb r hr
    rw [parseScript_ok_eq h, mem_sortPanels]
    exact List.mem_filterMap.mpr ⟨b, hb, hr⟩

/-- Witness for C8: in a two-block input whose first block has ordinal 0,
the first block is dropped while the second block's record is returned. -/
theorem claim_C8_witness :
    parseBlock ("Panel 0: x\n".toList) = none ∧
    (⟨1, "No description provided.".toList, [], none⟩ : PanelScript) ∈
      ([⟨1, "No description provided.".toList, [], none⟩] : List PanelScript) :=
  ⟨claim_C8.1 _ rfl,
    claim_C8.2 ("Panel 0: x\nPanel 1: y".toList) _ rfl
      ("Panel 1: y".toList) (by decide) _ rfl⟩

/-! ### Claim C9 -/

/-- C9: for every block emitted by `parseScript` (equivalently, every
block on which `parseBlock` produces a record): a missing `Description:`
label yields exactly the placeholder string, a missing `Dialogue:` label
yields the empty string, and a missing `SFX:` label — or one whose
captured content trims to empty — yields an absent `sfx`; moreover every
record of a successful parse arises from some block via `parseBlock`. -/
theorem claim_C9 :
    (∀ (b : List Char) (r : PanelScript), parseBlock b = some r →
      ((findCIRest descLabel b = none →
          r.description = "No description provided.".toList) ∧
        (findCIRest dlgLabel b = none → r.dialogue = []) ∧
        ((findCIRest sfxLabel b = none ∨
            (∃ c, extractSection sfxLabel [] b = some c ∧ trim c = [])) →
          r.sfx = none))) ∧
    (∀ (s : List Char) (l : List PanelScript), parseScript s = Except.ok l →
      ∀ r ∈ l, ∃ b ∈ panelBlocks s, parseBlock b = some r) := by
  constructor
  · intro b r h
    have hr := parseBlock_some_eq h
    subst hr
    refine ⟨?_, ?_, ?_⟩
    · intro hnone
      show descField b = _
      unfold descField extractSection
      rw [hnone]
      rfl
    · intro hnone
      show dlgField b = _
      unfold dlgField extractSection
      rw [hnone]
      rfl
    · rintro (hnone | ⟨c, hc, htr⟩)
      · show sfxField b = none
        unfold sfxField extractSection
        rw [hnone]
        rfl
      · show sfxField b = none
        unfold sfxField
        rw [hc]
        show (if (trim c).isEmpty = true then none else some (trim c)) = none
        rw [htr]
        rfl
  · intro s l h r hr
    rw [parseScript_ok_eq h, mem_sortPanels] at hr
    exact List.mem_filterMap.mp hr

/-- Witness for C9: a block with no `Description:`/`Dialogue:` labels and
an `SFX:` label whose content trims to empty gets the placeholder
description, empty dialogue and absent sfx. -/
theorem claim_C9_witness :
    (⟨1, "No description provided.".toList, [], none⟩ : PanelScript).description
        = "No description provided.".toList ∧
    (⟨1, "No description provided.".toList, [], none⟩ : PanelScript).dialogue
        = [] ∧
    (⟨1, "No description provided.".toList, [], none⟩ : PanelScript).sfx
        = none ∧
    (∃ b ∈ panelBlocks ("Panel 1: q\nSFX:   ".toList),
      parseBlock b = some ⟨1, "No description provided.".toList, [], none⟩) :=
  ⟨(claim_C9.1 ("Panel 1: q\nSFX:   ".toList) _ rfl).1 rfl,
    (claim_C9.1 ("Panel 1: q\nSFX:   ".toList) _ rfl).2.1 rfl,
    (claim_C9.1 ("Panel 1: q\nSFX:   ".toList) _ rfl).2.2
      (Or.inr ⟨[], rfl, rfl⟩),
    claim_C9.2 ("Panel 1: q\nSFX:   ".toList)
      [⟨1, "No description provided.".toList, [], none⟩] rfl _ (by simp)⟩

/-! ### Claim C10 -/

/-- C10 as stated is refuted at this concrete input: it contains no
case-sensitive occurrence of `Panel <digits>:` but contains
case-insensitively matching marker lines (`panel 0:` and `panel 2:`), yet
`parseScript` fails, because the first case-insensitive match yields
ordinal 0 and the single surviving block is dropped. -/
theorem claim_C10_counterexample :
    parseScript ("panel 0: x\npanel 2: y".toList) = Except.error errNoData :=
  rfl

/-- C10 (amended): for every input with no case-sensitive split marker
anywhere but with a case-insensitively matching marker line whose first
match yields a positive ordinal `n`, `parseScript` does not fail: the
whole input forms a single block and the result is exactly one record
whose ordinal is `n`, however many marker lines the input contains. -/
theorem claim_C10 (s : List Char) (n : Nat)
    (hnomark : ∀ p, isPanelMarker (s.drop p) = false)
    (hfind : findPanelNum true s = some n) (hpos : 0 < n) :
    parseScript s = Except.ok [⟨n, descField s, dlgField s, sfxField s⟩] := by
  have hsplit : splitAux [] s = [s] := by
    have hc := splitAux_consume s [] [] (by
      intro w₁ w₂ he hne _
      rw [List.append_nil]
      have h2 : w₂ = s.drop w₁.length := by
        rw [he, List.drop_left]
      rw [h2]
      exact hnomark _)
    rw [List.append_nil, List.append_nil] at hc
    rw [hc]
    simp [splitAux]
  have hpb : panelBlocks s = [s] := by
    unfold panelBlocks
    rw [hsplit]
    have htne := trim_ne_nil_of_find hfind
    cases htr : trim s with
    | nil => exact absurd htr htne
    | cons _ _ => simp [List.filter, htr]
  have hord : panelOrd s = n := by
    unfold panelOrd
    rw [hfind]
    rfl
  have hblock : parseBlock s = some ⟨n, descField s, dlgField s, sfxField s⟩ := by
    unfold parseBlock
    rw [hord, if_pos hpos]
  have hfm : ([s] : List (List Char)).filterMap parseBlock =
      [⟨n, descField s, dlgField s, sfxField s⟩] := by
    rw [List.filterMap_cons, hblock]
    rfl
  simp only [parseScript]
  rw [hpb, hfm]
  rfl

/-- Witness for C10 (amended): a concrete all-lowercase input with two ci
marker lines parses to a single record carrying the first line's
ordinal. -/
theorem claim_C10_witness :
    parseScript ("panel 3: hi\npanel 1: yo".toList) =
      Except.ok [⟨3, descField ("panel 3: hi\npanel 1: yo".toList),
        dlgField ("panel 3: hi\npanel 1: yo".toList),
        sfxField ("panel 3: hi\npanel 1: yo".toList)⟩] :=
  claim_C10 ("panel 3: hi\npanel 1: yo".toList) 3
    (marker_safe_of_ball (by decide)) rfl (by decide)

/-! ### Hydration lemmas -/

theorem setImg_getElem_ne : ∀ (st : List MangaPanelData) (i j : Nat)
    (u : Option (List Char)), j ≠ i → (setImg st i u)[j]? = st[j]? := by
  intro st
  induction st with
  | nil => intro i j u _; rfl
  | cons d ds ih =>
    intro i j u hne
    cases i with
    | zero =>
      cases j with
      | zero => exact absurd rfl hne
      | succ j' => simp [setImg]
    | succ i' =>
      cases j with
      | zero => simp [setImg]
      | succ j' =>
        show (d :: setImg ds i' u)[j' + 1]? = (d :: ds)[j' + 1]?
        simp only [List.getElem?_cons_succ]
        exact ih i' j' u (fun hh => hne (by rw [hh]))

theorem setImg_getElem_eq : ∀ (st : List MangaPanelData) (i : Nat)
    (u : Option (List Char)),
    (setImg st i u)[i]? = Option.map (setU u) st[i]? := by
  intro st
  induction st with
  | nil => intro i u; rfl
  | cons d ds ih =>
    intro i u
    cases i with
    | zero => simp [setImg]
    | succ i' =>
      show (d :: setImg ds i' u)[i' + 1]? = _
      simp only [List.getElem?_cons_succ]
      exact ih i' u

theorem hydrate0_length (ps : List PanelScript) :
    (hydrate0 ps).length = ps.length :=
  List.length_map _ _

theorem hydrate0_getElem (ps : List PanelScript) (j : Nat) :
    (hydrate0 ps)[j]? = Option.map (fun p => mkPanel p none) ps[j]? :=
  List.getElem?_map _ _ _

/-- Behavior of the image loop when the request for the `m`-th index from
the loop position rejects and all earlier ones resolve: exactly the
indices up to the failing one are requested, the error is reported, the
final collection carries each successful update and nothing else. -/
theorem runFrom_error (req : Nat → Except (List Char) (Option (List Char)))
    (e : List Char) :
    ∀ (m k i : Nat) (st : List MangaPanelData), m < k →
    req (i + m) = .error e →
    (∀ l, l < m → ∃ u, req (i + l) = .ok u) →
    (runFrom req st i k).requested = (List.range (m + 1)).map (i + ·) ∧
    (runFrom req st i k).err = some e ∧
    (∀ l u, l < m → req (i + l) = .ok u →
      (runFrom req st i k).final[i + l]? = Option.map (setU u) st[i + l]?) ∧
    (∀ j, j < i ∨ i + m ≤ j → (runFrom req st i k).final[j]? = st[j]?) := by
  intro m
  induction m with
  | zero =>
    intro k i st hk herr _
    cases k with
    | zero => omega
    | succ k' =>
      rw [Nat.add_zero] at herr
      have hre : runFrom req st i (k' + 1) = ⟨st, [], some e, [i]⟩ := by
        simp only [runFrom, herr]
      rw [hre]
      refine ⟨?_, rfl, ?_, fun j _ => rfl⟩
      · show [i] = List.map (fun x => i + x) (List.range 1)
        have h1 : List.range 1 = [0] := rfl
        rw [h1, List.map_cons, List.map_nil]
        simp
      · intro l u hl
        exact absurd hl (by omega)
  | succ m' ih =>
    intro k i st hk herr hok
    cases k with
    | zero => omega
    | succ k' =>
      obtain ⟨u₀, hu₀⟩ := hok 0 (Nat.succ_pos m')
      rw [Nat.add_zero] at hu₀
      have herr' : req ((i + 1) + m') = .error e := by
        rw [← herr]
        congr 1
        omega
      have hok' : ∀ l, l < m' → ∃ u, req ((i + 1) + l) = .ok u := by
        intro l hl
        obtain ⟨u, hu⟩ := hok (l + 1) (by omega)
        exact ⟨u, by rw [← hu]; congr 1; omega⟩
      have hmk : m' < k' := by omega
      obtain ⟨ihr, ihe, ihup, ihun⟩ :=
        ih k' (i + 1) (setImg st i u₀) hmk herr' hok'
      have hre : runFrom req st i (k' + 1) =
          ⟨(runFrom req (setImg st i u₀) (i + 1) k').final,
            setImg st i u₀ :: (runFrom req (setImg st i u₀) (i + 1) k').pubs,
            (runFrom req (setImg st i u₀) (i + 1) k').err,
            i :: (runFrom req (setImg st i u₀) (i + 1) k').requested⟩ := by
        simp only [runFrom, hu₀]
      rw [hre]
      refine ⟨?_, ihe, ?_, ?_⟩
      · show i :: (runFrom req (setImg st i u₀) (i + 1) k').requested = _
        rw [ihr, List.range_succ_eq_map (m' + 1), List.map_cons, List.map_map]
        congr 1
        refine List.map_congr_left ?_
        intro a _
        simp only [Function.comp_apply]
        omega
      · intro l u hl hu
        cases l with
        | zero =>
          have huu : u = u₀ := by
            rw [Nat.add_zero, hu₀] at hu
            injection hu with hh
            exact hh.symm
          have hfin := ihun i (Or.inl (by omega))
          show (runFrom req (setImg st i u₀) (i + 1) k').final[i]? =
            Option.map (setU u) st[i]?
          rw [hfin, setImg_getElem_eq, huu]
        | succ l' =>
          have hidx : i + (l' + 1) = (i + 1) + l' := by omega
          rw [hidx] at hu
          have hfin := ihup l' u (by omega) hu
          show (runFrom req (setImg st i u₀) (i + 1) k').final[i + (l' + 1)]? = _
          rw [hidx, hfin, setImg_getElem_ne st i ((i + 1) + l') u₀ (by omega)]
      · intro j hj
        have hfin := ihun j (by omega)
        show (runFrom req (setImg st i u₀) (i + 1) k').final[j]? = _
        rw [hfin, setImg_getElem_ne st i j u₀ (by omega)]

/-! ### Claim C2 -/

/-- C2: if the image request for panel index i rejects and all earlier
ones resolve, then exactly the indices `0..i` are requested (none after
i), the error is reported, the published collection retains the imageUrl
value set for every index `< i`, and the entries at indices `≥ i` are
still the untouched placeholders (the error handler does not clear prior
partial state). -/
theorem claim_C2 (ps : List PanelScript)
    (req : Nat → Except (List Char) (Option (List Char))) (i : Nat)
    (e : List Char) (hi : i < ps.length) (herr : req i = .error e)
    (hok : ∀ j, j < i → ∃ u, req j = .ok u) :
    (hydrateRun ps req).requested = List.range (i + 1) ∧
    (hydrateRun ps req).err = some e ∧
    (∀ j u, j < i → req j = .ok u →
      (hydrateRun ps req).final[j]? =
        Option.map (fun p => mkPanel p u) ps[j]?) ∧
    (∀ j, i ≤ j → (hydrateRun ps req).final[j]? = (hydrate0 ps)[j]?) := by
  obtain ⟨hreq, herr2, hup, hun⟩ :=
    runFrom_error req e i ps.length 0 (hydrate0 ps) hi
      (by simpa using herr) (by simpa using hok)
  refine ⟨?_, herr2, ?_, ?_⟩
  · show (runFrom req (hydrate0 ps) 0 ps.length).requested = _
    rw [hreq]
    have hc : ∀ a ∈ List.range (i + 1), 0 + a = a := fun a _ => by omega
    rw [List.map_congr_left hc]
    simp
  · intro j u hj hu
    have h1 := hup j u hj (by simpa using hu)
    rw [show (0 + j) = j from by omega] at h1
    show (runFrom req (hydrate0 ps) 0 ps.length).final[j]? = _
    rw [h1, hydrate0_getElem]
    cases ps[j]? <;> rfl
  · intro j hj
    exact hun j (Or.inr (by omega))

/-- Witness for C2: three panels, the request for index 1 rejects after
index 0 resolved; only indices 0 and 1 are requested, index 0 keeps its
image, index 1 keeps its placeholder. -/
theorem claim_C2_witness :
    (hydrateRun [⟨1, [], [], none⟩, ⟨2, [], [], none⟩, ⟨3, [], [], none⟩]
        (fun j => if j = 0 then Except.ok (some ['a'])
          else Except.error ['t'])).requested = List.range 2 ∧
    (hydrateRun [⟨1, [], [], none⟩, ⟨2, [], [], none⟩, ⟨3, [], [], none⟩]
        (fun j => if j = 0 then Except.ok (some ['a'])
          else Except.error ['t'])).err = some ['t'] ∧
    (hydrateRun [⟨1, [], [], none⟩, ⟨2, [], [], none⟩, ⟨3, [], [], none⟩]
        (fun j => if j = 0 then Except.ok (some ['a'])
          else Except.error ['t'])).final[0]? =
      Option.map (fun p => mkPanel p (some ['a']))
        (([⟨1, [], [], none⟩, ⟨2, [], [], none⟩,
          ⟨3, [], [], none⟩] : List PanelScript)[(0 : Nat)]?) ∧
    (hydrateRun [⟨1, [], [], none⟩, ⟨2, [], [], none⟩, ⟨3, [], [], none⟩]
        (fun j => if j = 0 then Except.ok (some ['a'])
          else Except.error ['t'])).final[1]? =
      (hydrate0 [⟨1, [], [], none⟩, ⟨2, [], [], none⟩, ⟨3, [], [], none⟩])[1]? := by
  have hok : ∀ j, j < 1 →
      ∃ u, (fun j => if j = 0 then Except.ok (some ['a'])
        else Except.error ['t']) j = Except.ok u := by
    intro j hj
    have hj0 : j = 0 := by omega
    subst hj0
    exact ⟨some ['a'], rfl⟩
  obtain ⟨h1, h2, h3, h4⟩ :=
    claim_C2 [⟨1, [], [], none⟩, ⟨2, [], [], none⟩, ⟨3, [], [], none⟩]
      (fun j => if j = 0 then Except.ok (some ['a']) else Except.error ['t'])
      1 ['t'] (by decide) rfl hok
  exact ⟨h1, h2, h3 0 (some ['a']) (by decide) rfl, h4 1 (by decide)⟩

/-! ### Claim C4 -/

/-- C4: hydration synchronously materializes and publishes, as the first
published state (whatever the image oracle later does), a collection of
exactly N entries in the same order as the parsed list, all with
`imageUrl` absent. -/
theorem claim_C4 (ps : List PanelScript)
    (req : Nat → Except (List Char) (Option (List Char))) :
    (hydrateRun ps req).pubs.head? = some (hydrate0 ps) ∧
    (hydrate0 ps).length = ps.length ∧
    (∀ j : Nat, (hydrate0 ps)[j]? =
      Option.map (fun p => mkPanel p none) ps[j]?) :=
  ⟨rfl, hydrate0_length ps, fun j => hydrate0_getElem ps j⟩

/-! ### Claim C5 -/

/-- C5: when the request for index i resolves, the next published state is
the previous one with only index i updated: every other index reads the
same, and index i carries the new image value. -/
theorem claim_C5 (req : Nat → Except (List Char) (Option (List Char)))
    (st : List MangaPanelData) (i k : Nat) (u : Option (List Char))
    (h : req i = .ok u) :
    (runFrom req st i (k + 1)).pubs.head? = some (setImg st i u) ∧
    (∀ j, j ≠ i → (setImg st i u)[j]? = st[j]?) ∧
    ((setImg st i u)[i]? = Option.map (setU u) st[i]?) := by
  refine ⟨?_, fun j hj => setImg_getElem_ne st i j u hj,
    setImg_getElem_eq st i u⟩
  simp only [runFrom, h]
  rfl

/-- Witness for C5: a two-entry collection, the request for index 0
resolves; the published state updates index 0 and leaves index 1 as it
was. -/
theorem claim_C5_witness :
    (runFrom (fun _ => Except.ok (some ['u']))
        [⟨1, [], [], none, none⟩, ⟨2, [], [], none, none⟩] 0 1).pubs.head? =
      some (setImg [⟨1, [], [], none, none⟩, ⟨2, [], [], none, none⟩] 0
        (some ['u'])) ∧
    (setImg [⟨1, [], [], none, none⟩, ⟨2, [], [], none, none⟩] 0
        (some ['u']))[1]? =
      ([⟨1, [], [], none, none⟩, ⟨2, [], [], none, none⟩] :
        List MangaPanelData)[1]? ∧
    (setImg [⟨1, [], [], none, none⟩, ⟨2, [], [], none, none⟩] 0
        (some ['u']))[0]? =
      Option.map (setU (some ['u']))
        ([⟨1, [], [], none, none⟩, ⟨2, [], [], none, none⟩] :
          List MangaPanelData)[0]? := by
  obtain ⟨h1, h2, h3⟩ :=
    claim_C5 (fun _ => Except.ok (some ['u']))
      [⟨1, [], [], none, none⟩, ⟨2, [], [], none, none⟩] 0 0 (some ['u']) rfl
  exact ⟨h1, h2 1 (by decide), h3⟩

/-! ### Claim C7 -/

/-- C7: when parsing succeeds with fewer than 4 records, the generation
run fails with the validation error and the panel collection is left
empty. -/
theorem claim_C7 (s : List Char)
    (req : Nat → Except (List Char) (Option (List Char)))
    (l : List PanelScript) (h : parseScript s = Except.ok l)
    (hlt : l.length < 4) :
    (handleGenerateManga s req).collection = [] ∧
    (handleGenerateManga s req).error = some errTooFew := by
  have hh : handleGenerateManga s req = ⟨[], some errTooFew⟩ := by
    unfold handleGenerateManga
    rw [h]
    simp only [if_pos hlt]
  rw [hh]
  exact ⟨rfl, rfl⟩

/-- Witness for C7: a two-panel script parses but fails the at-least-4
validation; the collection stays empty. -/
theorem claim_C7_witness :
    (handleGenerateManga ("Panel 1: a\nPanel 2: b".toList)
        (fun _ => Except.error [])).collection = [] ∧
    (handleGenerateManga ("Panel 1: a\nPanel 2: b".toList)
        (fun _ => Except.error [])).error = some errTooFew :=
  claim_C7 ("Panel 1: a\nPanel 2: b".toList) (fun _ => Except.error [])
    [⟨1, "No description provided.".toList, [], none⟩,
      ⟨2, "No description provided.".toList, [], none⟩] rfl (by decide)

end DrManga
